import Mathlib

/-
Verification of the persistent session store of the councillor repository
(src/kinda_db.rs) against its natural-language specification.

The store is embedded shallowly: Rust strings become lists of characters,
the filesystem becomes explicit fields (the index snapshot db.txt and the
per-session transcript log files), the tokio RwLock-guarded HashMap becomes
an association list, and every operation of the KindaDb facade becomes a
pure Lean function on that state.  Calls to now_sec() are modelled by an
explicit time parameter; operations of the source that never read the
clock take no such parameter.  Rust panics (unwrap on parse or on indexing)
are modelled by Option, with none meaning the process aborts.
-/

set_option maxHeartbeats 1000000

namespace Councillor

/-- Rust string contents (message bodies, file contents) are modelled as
lists of characters. -/
abbrev Str := List Char

/-- Message roles, as in the async_openai Role enum used by kinda_db.rs. -/
inductive Role where
  | system
  | user
  | assistant
  | tool
  | function
deriving DecidableEq

/-- Serde encoding of a role as written by add_to_chat, line 96 of
kinda_db.rs: serde_json::to_string on the lowercase-renamed enum produces
the quoted lowercase variant name. -/
def roleJson : Role → Str
  | .system => "\"system\"".data
  | .user => "\"user\"".data
  | .assistant => "\"assistant\"".data
  | .tool => "\"tool\"".data
  | .function => "\"function\"".data

/-- Inverse of roleJson, modelling serde_json::from_str::<Role> at line 144
of kinda_db.rs on the canonical encodings (the only ones the code itself
ever writes); any other fragment makes the load unwrap fail. -/
def roleFromJson (s : Str) : Option Role :=
  if s = "\"system\"".data then some .system
  else if s = "\"user\"".data then some .user
  else if s = "\"assistant\"".data then some .assistant
  else if s = "\"tool\"".data then some .tool
  else if s = "\"function\"".data then some .function
  else none

/-- The ChatState enum of kinda_db.rs: a session record is either
Unconfirmed or Confirmed with a timestamp and an in-memory transcript. -/
inductive ChatState where
  | Unconfirmed
  | Confirmed (last_activity : Nat) (msgs : List (Role × Str))
deriving DecidableEq

/-- One step of association-list lookup, modelling HashMap::get. -/
def lookupA {α : Type} : List (Int × α) → Int → Option α
  | [], _ => none
  | (k, v) :: rest, key => if k = key then some v else lookupA rest key

/-- Association-list insert-or-replace, modelling HashMap::insert. -/
def insertA {α : Type} : List (Int × α) → Int → α → List (Int × α)
  | [], key, v => [(key, v)]
  | (k, w) :: rest, key, v =>
      if k = key then (key, v) :: rest else (k, w) :: insertA rest key v

/-- Association-list removal, modelling HashMap::remove (and deletion of a
file from the directory). -/
def removeA {α : Type} : List (Int × α) → Int → List (Int × α)
  | [], _ => []
  | (k, w) :: rest, key =>
      if k = key then removeA rest key else (k, w) :: removeA rest key

/-- Decimal digit characters, used to model the Display printing of
integers in format! calls. -/
def digitChar : Nat → Char
  | 0 => '0'
  | 1 => '1'
  | 2 => '2'
  | 3 => '3'
  | 4 => '4'
  | 5 => '5'
  | 6 => '6'
  | 7 => '7'
  | 8 => '8'
  | _ => '9'

/-- Fuelled most-significant-first decimal digit expansion; any fuel above
the argument is sufficient. -/
def natToDigitsF : Nat → Nat → Str
  | 0, _ => []
  | fuel + 1, n =>
      if n < 10 then [digitChar n]
      else natToDigitsF fuel (n / 10) ++ [digitChar (n % 10)]

/-- Decimal printing of an unsigned integer, as Display for u64 in
format! at lines 175 and 176 of kinda_db.rs. -/
def natRepr (n : Nat) : Str := natToDigitsF (n + 1) n

/-- Decimal printing of a signed integer, as Display for the i64 inside
ChatId in format! calls of kinda_db.rs. -/
def intRepr (i : Int) : Str :=
  if i < 0 then '-' :: natRepr i.natAbs else natRepr i.toNat

/-- Value of a decimal digit character, none for any other character. -/
def digitVal (c : Char) : Option Nat :=
  if '0' ≤ c ∧ c ≤ '9' then some (c.toNat - 48) else none

/-- Accumulating decimal parse of a digit string; fails on the first
non-digit character. -/
def parseNatCore : Str → Nat → Option Nat
  | [], acc => some acc
  | c :: rest, acc =>
      match digitVal c with
      | some d => parseNatCore rest (acc * 10 + d)
      | none => none

def U64MOD : Nat := 18446744073709551616

def I64HIN : Nat := 9223372036854775808

/-- Rust str::parse::<u64> as used at line 127 of kinda_db.rs: an optional
leading plus sign, then at least one decimal digit, value within u64
range; anything else is a parse error (an unwrap failure at load). -/
def parseU64 (s : Str) : Option Nat :=
  let cs := if s.head? = some '+' then s.tail else s
  if cs = [] then none
  else
    match parseNatCore cs 0 with
    | some n => if n < U64MOD then some n else none
    | none => none

/-- Rust str::parse::<i64> as used at line 126 of kinda_db.rs: an optional
sign, then at least one decimal digit, value within i64 range. -/
def parseI64 (s : Str) : Option Int :=
  if s.head? = some '-' then
    if s.tail = [] then none
    else
      match parseNatCore s.tail 0 with
      | some n => if n ≤ I64HIN then some (-(n : Int)) else none
      | none => none
  else
    let cs := if s.head? = some '+' then s.tail else s
    if cs = [] then none
    else
      match parseNatCore cs 0 with
      | some n => if n < I64HIN then some ((n : Int)) else none
      | none => none

/-- Boolean check that the first list is an initial segment of the second. -/
def isPre : Str → Str → Bool
  | [], _ => true
  | _ :: _, [] => false
  | c :: cs, d :: ds => c == d && isPre cs ds

/-- Boolean check that the pattern dl occurs verbatim somewhere inside the
string, the sense in which message content must not contain the record
delimiter. -/
def hasDelim (dl : Str) : Str → Bool
  | [] => false
  | c :: rest => isPre dl (c :: rest) || hasDelim dl rest

/-- Fuelled leftmost non-overlapping splitting on the pattern d :: ds,
modelling Rust str::split; fuel one above the string length is always
sufficient. -/
def splitF (d : Char) (ds : Str) : Nat → Str → List Str
  | 0, s => [s]
  | _ + 1, [] => [[]]
  | fuel + 1, c :: rest =>
      if isPre (d :: ds) (c :: rest)
      then [] :: splitF d ds fuel (rest.drop ds.length)
      else
        match splitF d ds fuel rest with
        | [] => [[c]]
        | f :: fs => (c :: f) :: fs

/-- Rust str::split on a nonempty pattern. -/
def splitOnL (dl : Str) (s : Str) : List Str :=
  match dl with
  | [] => [s]
  | d :: ds => splitF d ds (s.length + 1) s

/-- The negation of String::is_empty, used by the filters at lines 118 and
141 of kinda_db.rs. -/
def nonEmptyB : Str → Bool
  | [] => false
  | _ :: _ => true

/-- The transcript record delimiter written between role and content at
line 96 of kinda_db.rs. -/
def delimRec : Str := ['*', '*', '*', '\n']

/-- The line separator of the index snapshot file. -/
def delimNl : Str := ['\n']

/-- Accumulator of Rust str::split_whitespace: whitespace runs separate
maximal nonempty words. -/
def splitWsAux : Str → Str → List Str
  | [], acc => if acc = [] then [] else [acc.reverse]
  | c :: rest, acc =>
      if c.isWhitespace then
        if acc = [] then splitWsAux rest []
        else acc.reverse :: splitWsAux rest []
      else splitWsAux rest (c :: acc)

/-- Rust str::split_whitespace as used at line 125 of kinda_db.rs. -/
def splitWs (s : Str) : List Str := splitWsAux s []

/-- Parsing of one index snapshot line, lines 125 to 127 of kinda_db.rs:
first whitespace-separated token is the i64 identifier, second is the u64
marker; a missing token or a failed parse is an unwrap failure. -/
def parseRecord (record : Str) : Option (Int × Nat) :=
  match splitWs record with
  | i :: la :: _ =>
      match parseI64 i, parseU64 la with
      | some chat_id, some n => some (chat_id, n)
      | _, _ => none
  | _ => none

/-- Grouping of the nonempty fragments of a transcript log into (role,
content) pairs, lines 143 to 147 of kinda_db.rs; an odd trailing fragment
makes the ch[1] indexing fail. -/
def parseChunksL : List Str → Option (List (Role × Str))
  | [] => some []
  | [_] => none
  | r :: m :: rest =>
      match roleFromJson r, parseChunksL rest with
      | some ro, some t => some ((ro, m) :: t)
      | _, _ => none

/-- The transcript log read procedure, lines 139 to 147 of kinda_db.rs:
split the whole content on the delimiter, drop empty fragments, pair up. -/
def parseChatFileL (content : Str) : Option (List (Role × Str)) :=
  parseChunksL ((splitOnL delimRec content).filter nonEmptyB)

/-- Wrapping subtraction on u64, the arithmetic of now_sec() - updated at
line 75 of kinda_db.rs. -/
def u64sub (a b : Nat) : Nat :=
  ((a % U64MOD) + (U64MOD - b % U64MOD)) % U64MOD

/-- The line appended to the snapshot string for one table entry, lines
174 to 177 of kinda_db.rs. -/
def entryStr (p : Int × ChatState) : Str :=
  match p.2 with
  | .Unconfirmed => intRepr p.1 ++ (' ' :: '0' :: '\n' :: [])
  | .Confirmed la _ => intRepr p.1 ++ ' ' :: (natRepr la ++ ['\n'])

/-- The full snapshot file content produced by save_state, lines 171 to
180 of kinda_db.rs. -/
def saveStateStr (state : List (Int × ChatState)) : Str :=
  state.foldl (fun acc p => acc ++ entryStr p) []

/-- The same line without its terminating newline, for stating what the
snapshot file contains. -/
def entryLine (p : Int × ChatState) : Str :=
  match p.2 with
  | .Unconfirmed => intRepr p.1 ++ (' ' :: '0' :: [])
  | .Confirmed la _ => intRepr p.1 ++ ' ' :: natRepr la

/-- The nonempty lines of a file content. -/
def linesOf (content : Str) : List Str :=
  (splitOnL delimNl content).filter nonEmptyB

/-- The KindaDb store together with the directory it persists into: state
is the in-memory session table, dbFile the content of db.txt if that file
exists, chatFiles the contents of the per-session transcript logs. -/
structure KindaDb where
  state : List (Int × ChatState)
  dbFile : Option Str
  chatFiles : List (Int × Str)
deriving DecidableEq

/-- save_state, lines 169 to 183: rewrite db.txt from the table. -/
def KindaDb.save_state (db : KindaDb) : KindaDb :=
  { db with dbFile := some (saveStateStr db.state) }

/-- register, lines 30 to 34. -/
def KindaDb.register (db : KindaDb) (chat_id : Int) : KindaDb :=
  KindaDb.save_state { db with state := insertA db.state chat_id .Unconfirmed }

/-- reset_chat, lines 40 to 48: delete the transcript log, install a fresh
Confirmed record stamped with the current time, rewrite the snapshot. -/
def KindaDb.reset_chat (db : KindaDb) (now : Nat) (chat_id : Int) : KindaDb :=
  KindaDb.save_state
    { db with
      chatFiles := removeA db.chatFiles chat_id,
      state := insertA db.state chat_id (.Confirmed now []) }

/-- confirm, lines 36 to 38: exactly reset_chat. -/
def KindaDb.confirm (db : KindaDb) (now : Nat) (chat_id : Int) : KindaDb :=
  db.reset_chat now chat_id

/-- delete, lines 50 to 57. -/
def KindaDb.delete (db : KindaDb) (chat_id : Int) : KindaDb :=
  KindaDb.save_state
    { db with
      state := removeA db.state chat_id,
      chatFiles := removeA db.chatFiles chat_id }

/-- is_accepted, lines 59 to 65. -/
def KindaDb.is_accepted (db : KindaDb) (chat_id : Int) : Bool :=
  match lookupA db.state chat_id with
  | some (.Confirmed _ _) => true
  | _ => false

/-- chat_prev, lines 67 to 82: within the window return the transcript
untouched, after it perform an implicit reset, otherwise empty. -/
def KindaDb.chat_prev (db : KindaDb) (now : Nat) (chat_id : Int) :
    List (Role × Str) × KindaDb :=
  match lookupA db.state chat_id with
  | some (.Confirmed updated msgs) =>
      if u64sub now updated < 1800 then (msgs, db)
      else ([], db.reset_chat now chat_id)
  | _ => ([], db)

/-- The chunk appended per message, line 96 of kinda_db.rs. -/
def chunkL (ro : Role) (m : Str) : Str :=
  roleJson ro ++ delimRec ++ m ++ delimRec

/-- Appending to a transcript log opened with create plus append, lines 89
to 97. -/
def appendChat (files : List (Int × Str)) (chat_id : Int) (chunk : Str) :
    List (Int × Str) :=
  match lookupA files chat_id with
  | some old => insertA files chat_id (old ++ chunk)
  | none => insertA files chat_id chunk

/-- add_to_chat, lines 84 to 107: when the record is Confirmed, append the
chunk to the log file and the pair to the transcript, keeping the stored
conv_start timestamp; in every case rewrite the snapshot.  The source
never reads the clock here, so the operation takes no time parameter. -/
def KindaDb.add_to_chat (db : KindaDb) (chat_id : Int) (role : Role) (msg : Str) :
    KindaDb :=
  KindaDb.save_state
    (match lookupA db.state chat_id with
     | some (.Confirmed conv_start msgs) =>
        { db with
          chatFiles := appendChat db.chatFiles chat_id (chunkL role msg),
          state := insertA db.state chat_id
            (.Confirmed conv_start (msgs ++ [(role, msg)])) }
     | _ => db)

/-- Loading of one snapshot record, lines 123 to 156: parse the line, a
zero marker yields Unconfirmed, otherwise Confirmed with the transcript
reconstructed from the log file when it exists. -/
def loadRecord (chatFiles : List (Int × Str)) (record : Str) :
    Option (Int × ChatState) :=
  match parseRecord record with
  | none => none
  | some (chat_id, la) =>
      if la = 0 then some (chat_id, .Unconfirmed)
      else
        match lookupA chatFiles chat_id with
        | none => some (chat_id, .Confirmed la [])
        | some content =>
            match parseChatFileL content with
            | none => none
            | some msgs => some (chat_id, .Confirmed la msgs)

/-- The loading loop over all snapshot records, accumulating the table. -/
def loadLoop (chatFiles : List (Int × Str)) :
    List Str → List (Int × ChatState) → Option (List (Int × ChatState))
  | [], acc => some acc
  | r :: rest, acc =>
      match loadRecord chatFiles r with
      | none => none
      | some (chat_id, st) => loadLoop chatFiles rest (insertA acc chat_id st)

/-- new, lines 109 to 167: absent db.txt yields the empty table, otherwise
every nonempty line is loaded; none models a process abort during load. -/
def KindaDb.new (dbFile : Option Str) (chatFiles : List (Int × Str)) :
    Option KindaDb :=
  match dbFile with
  | none => some ⟨[], none, chatFiles⟩
  | some content =>
      match loadLoop chatFiles (linesOf content) [] with
      | none => none
      | some table => some ⟨table, some content, chatFiles⟩

/-- Iterated add_to_chat over a list of messages, the write side of the
transcript log round trip. -/
def foldAdd (db : KindaDb) (chat_id : Int) (msgs : List (Role × Str)) : KindaDb :=
  msgs.foldl (fun d p => d.add_to_chat chat_id p.1 p.2) db

/-- The log file content produced by appending the given messages in
order to an initially absent file. -/
def logFileL : List (Role × Str) → Str
  | [] => []
  | (ro, m) :: rest => chunkL ro m ++ logFileL rest

/-- Concatenation of the per-entry snapshot lines, the unfolded form of
the save_state fold. -/
def concatEntries : List (Int × ChatState) → Str
  | [] => []
  | p :: rest => entryStr p ++ concatEntries rest

/-- The fragment sequence of a transcript log: role encoding and content
alternating, in conversation order. -/
def interFrags : List (Role × Str) → List Str
  | [] => []
  | (ro, m) :: rest => roleJson ro :: m :: interFrags rest

/-- The index snapshot invariant of the specification: db.txt exists, its
content is the save_state rendering of the table, and its nonempty lines
are exactly one line per table entry. -/
def SnapshotInv (db : KindaDb) : Prop :=
  db.dbFile = some (saveStateStr db.state) ∧
  linesOf (saveStateStr db.state) = db.state.map entryLine

end Councillor

namespace Councillor

/-! Association list lemmas. -/

theorem lookupA_insertA_self {α : Type} (l : List (Int × α)) (k : Int) (v : α) :
    lookupA (insertA l k v) k = some v := by
  induction l with
  | nil => simp [insertA, lookupA]
  | cons p rest ih =>
      obtain ⟨k', w⟩ := p
      by_cases h : k' = k
      · simp [insertA, h, lookupA]
      · simp [insertA, h, lookupA, ih]

theorem lookupA_removeA_self {α : Type} (l : List (Int × α)) (k : Int) :
    lookupA (removeA l k) k = none := by
  induction l with
  | nil => simp [removeA, lookupA]
  | cons p rest ih =>
      obtain ⟨k', w⟩ := p
      by_cases h : k' = k
      · simp [removeA, h, ih]
      · simp [removeA, h, lookupA, ih]

theorem removeA_eq_of_none {α : Type} (l : List (Int × α)) (k : Int)
    (h : lookupA l k = none) : removeA l k = l := by
  induction l with
  | nil => simp [removeA]
  | cons p rest ih =>
      obtain ⟨k', w⟩ := p
      by_cases hk : k' = k
      · simp [lookupA, hk] at h
      · simp [lookupA, hk] at h
        simp [removeA, hk, ih h]

/-! Decimal printing and parsing round trip. -/

theorem digitChar_facts (d : Nat) (h : d < 10) :
    digitVal (digitChar d) = some d ∧ (digitChar d).isWhitespace = false ∧
    digitChar d ≠ '\n' ∧ digitChar d ≠ '-' ∧ digitChar d ≠ '+' ∧
    digitChar d ≠ ' ' := by
  interval_cases d <;> decide

theorem natToDigitsF_mem :
    ∀ fuel n, n < fuel → ∀ c ∈ natToDigitsF fuel n, ∃ d, d < 10 ∧ c = digitChar d := by
  intro fuel
  induction fuel with
  | zero => intro n h; omega
  | succ f ih =>
      intro n h c hc
      by_cases h10 : n < 10
      · simp [natToDigitsF, h10] at hc
        exact ⟨n, h10, hc⟩
      · simp [natToDigitsF, h10] at hc
        rcases hc with hc | hc
        · exact ih (n / 10) (by omega) c hc
        · exact ⟨n % 10, by omega, hc⟩

theorem natToDigitsF_ne_nil (fuel n : Nat) (h : 0 < fuel) :
    natToDigitsF fuel n ≠ [] := by
  cases fuel with
  | zero => omega
  | succ f => by_cases h10 : n < 10 <;> simp [natToDigitsF, h10]

theorem natRepr_mem {n : Nat} {c : Char} (hc : c ∈ natRepr n) :
    ∃ d, d < 10 ∧ c = digitChar d :=
  natToDigitsF_mem (n + 1) n (by omega) c hc

theorem natRepr_ne_nil (n : Nat) : natRepr n ≠ [] :=
  natToDigitsF_ne_nil _ _ (by omega)

theorem natRepr_head (n : Nat) :
    ∃ d t, d < 10 ∧ natRepr n = digitChar d :: t := by
  cases h : natRepr n with
  | nil => exact absurd h (natRepr_ne_nil n)
  | cons c t =>
      have hc : c ∈ natRepr n := by rw [h]; exact List.mem_cons_self _ _
      obtain ⟨d, hd, hcd⟩ := natRepr_mem hc
      subst hcd
      exact ⟨d, t, hd, rfl⟩

theorem parseNatCore_append (l₁ l₂ : Str) (acc : Nat) :
    parseNatCore (l₁ ++ l₂) acc =
      (parseNatCore l₁ acc).bind fun m => parseNatCore l₂ m := by
  induction l₁ generalizing acc with
  | nil => simp [parseNatCore]
  | cons c rest ih =>
      cases hd : digitVal c <;> simp [parseNatCore, hd, ih]

theorem parseNatCore_digitsF :
    ∀ fuel n acc, n < fuel →
      parseNatCore (natToDigitsF fuel n) acc =
        some (acc * 10 ^ (natToDigitsF fuel n).length + n) := by
  intro fuel
  induction fuel with
  | zero => intro n acc h; omega
  | succ f ih =>
      intro n acc h
      by_cases h10 : n < 10
      · simp [natToDigitsF, h10, parseNatCore, (digitChar_facts n h10).1]
      · simp only [natToDigitsF, h10, if_false]
        rw [parseNatCore_append, ih (n / 10) acc (by omega)]
        have hm : n % 10 < 10 := by omega
        simp [parseNatCore, (digitChar_facts (n % 10) hm).1]
        rw [pow_succ, ← Nat.mul_assoc]
        generalize acc * 10 ^ (natToDigitsF f (n / 10)).length = A
        omega

theorem parseNatCore_natRepr (n : Nat) : parseNatCore (natRepr n) 0 = some n := by
  have h := parseNatCore_digitsF (n + 1) n 0 (by omega)
  simpa [natRepr] using h

theorem parseU64_natRepr (n : Nat) (h : n < U64MOD) :
    parseU64 (natRepr n) = some n := by
  obtain ⟨d, t, hd, ht⟩ := natRepr_head n
  have hp : parseNatCore (digitChar d :: t) 0 = some n := by
    rw [← ht]; exact parseNatCore_natRepr n
  have hplus := (digitChar_facts d hd).2.2.2.2.1
  rw [parseU64, ht]
  simp [hplus, hp, h]

theorem parseI64_intRepr (i : Int) (h₁ : -(I64HIN : Int) ≤ i)
    (h₂ : i < (I64HIN : Int)) : parseI64 (intRepr i) = some i := by
  by_cases hneg : i < 0
  · have hrepr : intRepr i = '-' :: natRepr i.natAbs := by simp [intRepr, hneg]
    rw [parseI64, hrepr]
    simp only [List.head?_cons, List.tail_cons, if_pos rfl]
    rw [if_neg (natRepr_ne_nil _), parseNatCore_natRepr]
    show (if i.natAbs ≤ I64HIN then some (-(i.natAbs : Int)) else none) = some i
    have hb : i.natAbs ≤ I64HIN := by
      simp only [I64HIN] at h₁ ⊢
      omega
    rw [if_pos hb]
    have hv : -((i.natAbs : Int)) = i := by omega
    rw [hv]
  · have hrepr : intRepr i = natRepr i.toNat := by simp [intRepr, hneg]
    obtain ⟨d, t, hd, ht⟩ := natRepr_head i.toNat
    have hp : parseNatCore (digitChar d :: t) 0 = some i.toNat := by
      rw [← ht]; exact parseNatCore_natRepr i.toNat
    have hdash := (digitChar_facts d hd).2.2.2.1
    have hplus := (digitChar_facts d hd).2.2.2.2.1
    rw [parseI64, hrepr, ht]
    have hb : i.toNat < I64HIN := by
      simp only [I64HIN] at h₂ ⊢
      omega
    simp [hdash, hplus, hp, hb]
    omega


/-! Splitting lemmas. -/

theorem isPre_append_self : ∀ (l r : Str), isPre l (l ++ r) = true := by
  intro l r
  induction l with
  | nil => rfl
  | cons c cs ih => simp [isPre, ih]

theorem splitF_fuel (d : Char) (ds : Str) :
    ∀ f₁ f₂ s, s.length < f₁ → s.length < f₂ →
      splitF d ds f₁ s = splitF d ds f₂ s := by
  intro f₁
  induction f₁ with
  | zero => intro f₂ s h₁ h₂; omega
  | succ f ih =>
      intro f₂ s h₁ h₂
      cases f₂ with
      | zero => omega
      | succ g =>
          cases s with
          | nil => rfl
          | cons c rest =>
              have hr₁ : rest.length < f := by simp at h₁; omega
              have hr₂ : rest.length < g := by simp at h₂; omega
              simp only [splitF]
              by_cases hp : isPre (d :: ds) (c :: rest) = true
              · simp only [hp, if_true]
                rw [ih g (rest.drop ds.length) (by simp; omega) (by simp; omega)]
              · rw [if_neg hp, if_neg hp, ih g rest hr₁ hr₂]

theorem splitF_no_delim (d : Char) (ds : Str) :
    ∀ a fuel, a.length < fuel → hasDelim (d :: ds) a = false →
      splitF d ds fuel a = [a] := by
  intro a
  induction a with
  | nil =>
      intro fuel h _
      cases fuel with
      | zero => omega
      | succ f => rfl
  | cons c rest ih =>
      intro fuel h hd
      cases fuel with
      | zero => simp at h
      | succ f =>
          simp only [hasDelim, Bool.or_eq_false_iff] at hd
          have hrec := ih f (by simp at h; omega) hd.2
          simp only [splitF]
          rw [if_neg (by simp [hd.1]), hrec]

theorem bdryNl (a r : Str) (hd : hasDelim delimNl a = false) (ha : a ≠ []) :
    isPre delimNl (a ++ delimNl ++ r) = false := by
  cases a with
  | nil => exact absurd rfl ha
  | cons x t =>
      simp only [hasDelim, Bool.or_eq_false_iff] at hd
      have h1 := hd.1
      simp [delimNl, isPre] at h1 ⊢
      exact h1

theorem bdryRec (a r : Str) (hd : hasDelim delimRec a = false) (ha : a ≠ []) :
    isPre delimRec (a ++ delimRec ++ r) = false := by
  match a with
  | [] => exact absurd rfl ha
  | [x] => simp [delimRec, isPre]
  | [x, y] => simp [delimRec, isPre]
  | [x, y, z] => simp [delimRec, isPre]
  | x :: y :: z :: w :: t =>
      simp only [hasDelim, Bool.or_eq_false_iff] at hd
      have h1 := hd.1
      simp [delimRec, isPre] at h1 ⊢
      intro hx hy hz
      exact h1 hx hy hz

theorem splitF_append (d : Char) (ds : Str)
    (bdry : ∀ a r, hasDelim (d :: ds) a = false → a ≠ [] →
      isPre (d :: ds) (a ++ (d :: ds) ++ r) = false) :
    ∀ a r fuel, hasDelim (d :: ds) a = false →
      (a ++ (d :: ds) ++ r).length < fuel →
      splitF d ds fuel (a ++ (d :: ds) ++ r) =
        a :: splitF d ds (r.length + 1) r := by
  intro a
  induction a with
  | nil =>
      intro r fuel hd hlen
      cases fuel with
      | zero => simp at hlen
      | succ f =>
          simp only [List.nil_append] at hlen ⊢
          have hpre : isPre (d :: ds) ((d :: ds) ++ r) = true := isPre_append_self _ _
          simp only [List.cons_append] at hpre hlen ⊢
          simp only [splitF]
          rw [if_pos hpre]
          have hdrop : (ds ++ r).drop ds.length = r := List.drop_left ds r
          rw [hdrop]
          rw [splitF_fuel d ds f (r.length + 1) r (by simp at hlen; omega) (by omega)]
  | cons x t ih =>
      intro r fuel hd hlen
      cases fuel with
      | zero => simp at hlen
      | succ f =>
          have hb := bdry (x :: t) r hd (by simp)
          have hd' : hasDelim (d :: ds) t = false := by
            simp only [hasDelim, Bool.or_eq_false_iff] at hd
            exact hd.2
          simp only [List.cons_append, List.append_assoc] at hb hlen ih ⊢
          simp only [splitF]
          rw [if_neg (by simp [hb])]
          rw [ih r f hd' (by simp at hlen ⊢; omega)]

theorem splitOnL_nl (a r : Str) (hd : hasDelim delimNl a = false) :
    splitOnL delimNl (a ++ delimNl ++ r) = a :: splitOnL delimNl r := by
  have hb : ∀ a r, hasDelim ('\n' :: ([] : Str)) a = false → a ≠ [] →
      isPre ('\n' :: ([] : Str)) (a ++ ('\n' :: ([] : Str)) ++ r) = false :=
    fun a r h hn => bdryNl a r h hn
  have hd' : hasDelim ('\n' :: ([] : Str)) a = false := hd
  show splitF '\n' []
      ((a ++ ('\n' :: ([] : Str)) ++ r).length + 1)
      (a ++ ('\n' :: ([] : Str)) ++ r) = _
  rw [splitF_append '\n' [] hb a r _ hd' (by omega)]
  rfl

theorem splitOnL_rec (a r : Str) (hd : hasDelim delimRec a = false) :
    splitOnL delimRec (a ++ delimRec ++ r) = a :: splitOnL delimRec r := by
  have hb : ∀ a r, hasDelim ('*' :: (['*', '*', '\n'] : Str)) a = false → a ≠ [] →
      isPre ('*' :: (['*', '*', '\n'] : Str))
        (a ++ ('*' :: (['*', '*', '\n'] : Str)) ++ r) = false :=
    fun a r h hn => bdryRec a r h hn
  have hd' : hasDelim ('*' :: (['*', '*', '\n'] : Str)) a = false := hd
  show splitF '*' ['*', '*', '\n']
      ((a ++ ('*' :: (['*', '*', '\n'] : Str)) ++ r).length + 1)
      (a ++ ('*' :: (['*', '*', '\n'] : Str)) ++ r) = _
  rw [splitF_append '*' ['*', '*', '\n'] hb a r _ hd' (by omega)]
  rfl

theorem splitOnL_no_nl (a : Str) (hd : hasDelim delimNl a = false) :
    splitOnL delimNl a = [a] :=
  splitF_no_delim '\n' [] a (a.length + 1) (by omega) hd

theorem splitOnL_no_rec (a : Str) (hd : hasDelim delimRec a = false) :
    splitOnL delimRec a = [a] :=
  splitF_no_delim '*' ['*', '*', '\n'] a (a.length + 1) (by omega) hd

/-! Whitespace splitting lemmas. -/

theorem splitWsAux_words (a : Str) (hws : ∀ c ∈ a, c.isWhitespace = false) :
    ∀ l acc, splitWsAux (a ++ l) acc = splitWsAux l (a.reverse ++ acc) := by
  induction a with
  | nil => simp
  | cons c t ih =>
      intro l acc
      have hc : c.isWhitespace = false := hws c (List.mem_cons_self _ _)
      have ht : ∀ x ∈ t, x.isWhitespace = false :=
        fun x hx => hws x (List.mem_cons_of_mem _ hx)
      simp only [List.cons_append, splitWsAux, List.append_eq]
      rw [if_neg (by simp [hc])]
      rw [ih ht l (c :: acc)]
      simp

theorem splitWs_pair (a b : Str) (ha : a ≠ []) (hb : b ≠ [])
    (hwa : ∀ c ∈ a, c.isWhitespace = false)
    (hwb : ∀ c ∈ b, c.isWhitespace = false) :
    splitWs (a ++ ' ' :: b) = [a, b] := by
  unfold splitWs
  rw [splitWsAux_words a hwa (' ' :: b) []]
  simp only [List.append_nil]
  have hrev : a.reverse ≠ [] := by simp [ha]
  have h1 : (' ').isWhitespace = true := rfl
  simp only [splitWsAux, h1, if_true]
  rw [if_neg hrev, List.reverse_reverse]
  have h2 := splitWsAux_words b hwb [] []
  simp only [List.append_nil] at h2
  rw [h2]
  have hrevb : b.reverse ≠ [] := by simp [hb]
  simp only [splitWsAux]
  rw [if_neg hrevb, List.reverse_reverse]


/-! Character classes of printed numbers. -/

theorem nonEmptyB_iff (l : Str) : nonEmptyB l = true ↔ l ≠ [] := by
  cases l <;> simp [nonEmptyB]

theorem natRepr_no_ws (n : Nat) : ∀ c ∈ natRepr n, c.isWhitespace = false := by
  intro c hc
  obtain ⟨d, hd, rfl⟩ := natRepr_mem hc
  exact (digitChar_facts d hd).2.1

theorem intRepr_mem {i : Int} {c : Char} (hc : c ∈ intRepr i) :
    c = '-' ∨ ∃ d, d < 10 ∧ c = digitChar d := by
  unfold intRepr at hc
  by_cases hneg : i < 0
  · rw [if_pos hneg] at hc
    rcases List.mem_cons.mp hc with rfl | hc
    · exact Or.inl rfl
    · exact Or.inr (natRepr_mem hc)
  · rw [if_neg hneg] at hc
    exact Or.inr (natRepr_mem hc)

theorem intRepr_no_ws (i : Int) : ∀ c ∈ intRepr i, c.isWhitespace = false := by
  intro c hc
  rcases intRepr_mem hc with rfl | ⟨d, hd, rfl⟩
  · decide
  · exact (digitChar_facts d hd).2.1

theorem intRepr_ne_nil (i : Int) : intRepr i ≠ [] := by
  unfold intRepr
  by_cases hneg : i < 0
  · simp [hneg]
  · simp [hneg, natRepr_ne_nil]

theorem hasDelimNl_false (l : Str) (h : ∀ c ∈ l, c ≠ '\n') :
    hasDelim delimNl l = false := by
  induction l with
  | nil => rfl
  | cons c rest ih =>
      have hc : c ≠ '\n' := h c (List.mem_cons_self _ _)
      have hrest := ih fun x hx => h x (List.mem_cons_of_mem _ hx)
      simp only [hasDelim, Bool.or_eq_false_iff]
      refine ⟨?_, hrest⟩
      simp [delimNl, isPre]
      exact fun he => absurd he.symm hc

theorem intRepr_no_nl (i : Int) : ∀ c ∈ intRepr i, c ≠ '\n' := by
  intro c hc
  rcases intRepr_mem hc with rfl | ⟨d, hd, rfl⟩
  · decide
  · exact (digitChar_facts d hd).2.2.1

theorem natRepr_no_nl (n : Nat) : ∀ c ∈ natRepr n, c ≠ '\n' := by
  intro c hc
  obtain ⟨d, hd, rfl⟩ := natRepr_mem hc
  exact (digitChar_facts d hd).2.2.1

/-! Snapshot file lines. -/

theorem entryStr_eq (p : Int × ChatState) :
    entryStr p = entryLine p ++ delimNl := by
  cases hp : p.2 <;> simp [entryStr, entryLine, hp, delimNl, List.append_assoc]

theorem entryLine_no_nl (p : Int × ChatState) :
    hasDelim delimNl (entryLine p) = false := by
  apply hasDelimNl_false
  intro c hc
  cases hp : p.2 with
  | Unconfirmed =>
      simp only [entryLine, hp] at hc
      rcases List.mem_append.mp hc with hc | hc
      · exact intRepr_no_nl _ c hc
      · simp only [List.mem_cons, List.not_mem_nil, or_false] at hc
        rcases hc with rfl | rfl
        · decide
        · decide
  | Confirmed la ms =>
      simp only [entryLine, hp] at hc
      rcases List.mem_append.mp hc with hc | hc
      · exact intRepr_no_nl _ c hc
      · rcases List.mem_cons.mp hc with rfl | hc
        · decide
        · exact natRepr_no_nl _ c hc

theorem entryLine_ne_nil (p : Int × ChatState) : nonEmptyB (entryLine p) = true := by
  rw [nonEmptyB_iff]
  cases hp : p.2 <;> simp [entryLine, hp, intRepr_ne_nil]

theorem saveStateStr_eq (state : List (Int × ChatState)) :
    saveStateStr state = concatEntries state := by
  have h : ∀ st (acc : Str),
      st.foldl (fun acc p => acc ++ entryStr p) acc = acc ++ concatEntries st := by
    intro st
    induction st with
    | nil => intro acc; simp [concatEntries]
    | cons p rest ih => intro acc; simp [concatEntries, ih, List.append_assoc]
  simpa [saveStateStr] using h state []

theorem linesOf_concat (state : List (Int × ChatState)) :
    linesOf (concatEntries state) = state.map entryLine := by
  induction state with
  | nil => rfl
  | cons p rest ih =>
      have h1 : concatEntries (p :: rest) =
          entryLine p ++ delimNl ++ concatEntries rest := by
        simp [concatEntries, entryStr_eq, List.append_assoc]
      unfold linesOf
      rw [h1, splitOnL_nl _ _ (entryLine_no_nl p)]
      rw [List.filter_cons_of_pos (entryLine_ne_nil p)]
      unfold linesOf at ih
      rw [ih, List.map_cons]

theorem lines_save (state : List (Int × ChatState)) :
    linesOf (saveStateStr state) = state.map entryLine := by
  rw [saveStateStr_eq, linesOf_concat]

theorem snapInv_save (db : KindaDb) : SnapshotInv (KindaDb.save_state db) :=
  ⟨rfl, lines_save db.state⟩

/-! Transcript log round trip. -/

theorem roleJson_facts (ro : Role) :
    hasDelim delimRec (roleJson ro) = false ∧ nonEmptyB (roleJson ro) = true ∧
    roleFromJson (roleJson ro) = some ro := by
  cases ro <;> exact ⟨by decide, by decide, by decide⟩

theorem splitOnL_logFile :
    ∀ msgs, (∀ p ∈ msgs, hasDelim delimRec p.2 = false) →
      splitOnL delimRec (logFileL msgs) = interFrags msgs ++ [[]] := by
  intro msgs
  induction msgs with
  | nil => intro _; rfl
  | cons p rest ih =>
      intro h
      obtain ⟨ro, m⟩ := p
      have hm : hasDelim delimRec m = false := h (ro, m) (List.mem_cons_self _ _)
      have hrest := fun q hq => h q (List.mem_cons_of_mem _ hq)
      have h1 : logFileL ((ro, m) :: rest) =
          roleJson ro ++ delimRec ++ (m ++ delimRec ++ logFileL rest) := by
        simp [logFileL, chunkL, List.append_assoc]
      rw [h1, splitOnL_rec _ _ (roleJson_facts ro).1, splitOnL_rec _ _ hm, ih hrest]
      rfl

theorem filter_interFrags :
    ∀ msgs, (∀ p ∈ msgs, nonEmptyB p.2 = true) →
      (interFrags msgs ++ [[]]).filter nonEmptyB = interFrags msgs := by
  intro msgs
  induction msgs with
  | nil => intro _; rfl
  | cons p rest ih =>
      intro h
      obtain ⟨ro, m⟩ := p
      have hm : nonEmptyB m = true := h (ro, m) (List.mem_cons_self _ _)
      have hrest := fun q hq => h q (List.mem_cons_of_mem _ hq)
      simp only [interFrags, List.cons_append]
      rw [List.filter_cons_of_pos (roleJson_facts ro).2.1,
        List.filter_cons_of_pos hm, ih hrest]

theorem parseChunksL_interFrags :
    ∀ msgs, parseChunksL (interFrags msgs) = some msgs := by
  intro msgs
  induction msgs with
  | nil => rfl
  | cons p rest ih =>
      obtain ⟨ro, m⟩ := p
      simp [interFrags, parseChunksL, (roleJson_facts ro).2.2, ih]

theorem parseChatFileL_logFileL (msgs : List (Role × Str))
    (h : ∀ p ∈ msgs, hasDelim delimRec p.2 = false ∧ nonEmptyB p.2 = true) :
    parseChatFileL (logFileL msgs) = some msgs := by
  unfold parseChatFileL
  rw [splitOnL_logFile msgs fun p hp => (h p hp).1,
    filter_interFrags msgs fun p hp => (h p hp).2]
  exact parseChunksL_interFrags msgs

/-! Store operation lemmas. -/

theorem appendChat_self (files : List (Int × Str)) (chat_id : Int) (chunk : Str) :
    lookupA (appendChat files chat_id chunk) chat_id =
      some ((lookupA files chat_id).getD [] ++ chunk) := by
  unfold appendChat
  cases h : lookupA files chat_id <;> simp [h, lookupA_insertA_self]

theorem add_to_chat_confirmed (db : KindaDb) (chat_id : Int) (ro : Role) (m : Str)
    (la : Nat) (cur : List (Role × Str))
    (h : lookupA db.state chat_id = some (.Confirmed la cur)) :
    (db.add_to_chat chat_id ro m).state =
        insertA db.state chat_id (.Confirmed la (cur ++ [(ro, m)])) ∧
    (db.add_to_chat chat_id ro m).chatFiles =
        appendChat db.chatFiles chat_id (chunkL ro m) ∧
    (db.add_to_chat chat_id ro m).dbFile =
        some (saveStateStr
          (insertA db.state chat_id (.Confirmed la (cur ++ [(ro, m)])))) := by
  simp [KindaDb.add_to_chat, h, KindaDb.save_state]

theorem u64sub_eq (a b : Nat) (hba : b ≤ a) (ha : a < U64MOD) :
    u64sub a b = a - b := by
  unfold u64sub
  simp only [U64MOD] at ha ⊢
  omega

theorem foldAdd_invariant :
    ∀ msgs (db : KindaDb) chat_id la cur pre,
      lookupA db.state chat_id = some (.Confirmed la cur) →
      lookupA db.chatFiles chat_id = some pre →
      lookupA (foldAdd db chat_id msgs).state chat_id =
          some (.Confirmed la (cur ++ msgs)) ∧
      lookupA (foldAdd db chat_id msgs).chatFiles chat_id =
          some (pre ++ logFileL msgs) := by
  intro msgs
  induction msgs with
  | nil =>
      intro db chat_id la cur pre h1 h2
      simp [foldAdd, logFileL, h1, h2]
  | cons p rest ih =>
      intro db chat_id la cur pre h1 h2
      obtain ⟨ro, m⟩ := p
      have hadd := add_to_chat_confirmed db chat_id ro m la cur h1
      have hst : lookupA (db.add_to_chat chat_id ro m).state chat_id =
          some (.Confirmed la (cur ++ [(ro, m)])) := by
        rw [hadd.1, lookupA_insertA_self]
      have hcf : lookupA (db.add_to_chat chat_id ro m).chatFiles chat_id =
          some (pre ++ chunkL ro m) := by
        rw [hadd.2.1, appendChat_self, h2]
        rfl
      have hrec := ih (db.add_to_chat chat_id ro m) chat_id la
        (cur ++ [(ro, m)]) (pre ++ chunkL ro m) hst hcf
      have hfold : foldAdd db chat_id ((ro, m) :: rest) =
          foldAdd (db.add_to_chat chat_id ro m) chat_id rest := rfl
      rw [hfold]
      constructor
      · rw [hrec.1]
        simp
      · rw [hrec.2]
        simp [logFileL, List.append_assoc]


theorem chat_prev_of_confirmed (db : KindaDb) (now : Nat) (chat_id : Int)
    (la : Nat) (msgs : List (Role × Str))
    (h : lookupA db.state chat_id = some (.Confirmed la msgs)) :
    db.chat_prev now chat_id =
      if u64sub now la < 1800 then (msgs, db)
      else ([], db.reset_chat now chat_id) := by
  unfold KindaDb.chat_prev
  rw [h]

/-! Claim theorems. -/

/-- Claim C7: reset_chat unconditionally installs a Confirmed record with
last_activity equal to the call time and an empty transcript, whatever the
prior record was (absent, Unconfirmed or Confirmed), and confirm is the
very same operation, so confirming or resetting a never-approved or
unknown session grants it approved status. -/
theorem C7_reset_unconditional (db : KindaDb) (now : Nat) (chat_id : Int) :
    lookupA (db.reset_chat now chat_id).state chat_id =
        some (.Confirmed now []) ∧
    (db.reset_chat now chat_id).is_accepted chat_id = true ∧
    db.confirm now chat_id = db.reset_chat now chat_id := by
  have h : lookupA (db.reset_chat now chat_id).state chat_id =
      some (.Confirmed now []) :=
    lookupA_insertA_self db.state chat_id (.Confirmed now [])
  refine ⟨h, ?_, rfl⟩
  unfold KindaDb.is_accepted
  rw [h]

/-- Claim C5: confirm leaves the record Confirmed with last_activity equal
to the call time and an empty transcript and deletes any pre-existing
transcript log for the id; in particular after confirm, add_message,
confirm the rolling-context read returns the empty sequence. -/
theorem C5_confirm_resets (db : KindaDb) (t : Nat) (chat_id : Int) :
    lookupA (db.confirm t chat_id).state chat_id = some (.Confirmed t []) ∧
    lookupA (db.confirm t chat_id).chatFiles chat_id = none ∧
    (∀ ro m t₂ t₃,
      ((((db.confirm t chat_id).add_to_chat chat_id ro m).confirm t₂
          chat_id).chat_prev t₃ chat_id).1 = []) := by
  refine ⟨lookupA_insertA_self _ _ _, lookupA_removeA_self _ _, ?_⟩
  intro ro m t₂ t₃
  have h : lookupA ((((db.confirm t chat_id).add_to_chat chat_id ro
      m).confirm t₂ chat_id)).state chat_id = some (.Confirmed t₂ []) :=
    lookupA_insertA_self _ _ _
  rw [chat_prev_of_confirmed _ _ _ _ _ h]
  split <;> rfl

/-- Claim C9: delete removes the record from the table (a no-op on the
table when the record is absent), removes the transcript log so that none
exists afterwards, missing files being no error (the operation is total),
rewrites the snapshot, and afterwards is_accepted is false. -/
theorem C9_delete_total (db : KindaDb) (chat_id : Int) :
    (db.delete chat_id).state = removeA db.state chat_id ∧
    (db.delete chat_id).is_accepted chat_id = false ∧
    lookupA (db.delete chat_id).chatFiles chat_id = none ∧
    (db.delete chat_id).dbFile =
        some (saveStateStr (removeA db.state chat_id)) ∧
    (lookupA db.state chat_id = none → (db.delete chat_id).state = db.state) := by
  have h : lookupA (db.delete chat_id).state chat_id = none :=
    lookupA_removeA_self db.state chat_id
  refine ⟨rfl, ?_, lookupA_removeA_self _ _, rfl, ?_⟩
  · unfold KindaDb.is_accepted
    rw [h]
  · intro hnone
    show removeA db.state chat_id = db.state
    exact removeA_eq_of_none _ _ hnone

theorem C9_witness :
    ((⟨[(2, ChatState.Unconfirmed)], none, []⟩ : KindaDb).delete 1).state =
        removeA [(2, ChatState.Unconfirmed)] 1 ∧
    ((⟨[(2, ChatState.Unconfirmed)], none, []⟩ : KindaDb).delete 1).is_accepted
        1 = false ∧
    lookupA ((⟨[(2, ChatState.Unconfirmed)], none, []⟩ : KindaDb).delete
        1).chatFiles 1 = none ∧
    ((⟨[(2, ChatState.Unconfirmed)], none, []⟩ : KindaDb).delete 1).dbFile =
        some (saveStateStr (removeA [(2, ChatState.Unconfirmed)] 1)) ∧
    ((⟨[(2, ChatState.Unconfirmed)], none, []⟩ : KindaDb).delete 1).state =
        [(2, ChatState.Unconfirmed)] := by
  have h := C9_delete_total ⟨[(2, ChatState.Unconfirmed)], none, []⟩ 1
  exact ⟨h.1, h.2.1, h.2.2.1, h.2.2.2.1, h.2.2.2.2 (by decide)⟩

/-- Claim C10: for an absent or Unconfirmed record, is_accepted returns
false and read_rolling_context returns the empty sequence while the store
(table, snapshot, transcript logs) is returned unchanged. -/
theorem C10_gating (db : KindaDb) (now : Nat) (chat_id : Int)
    (h : lookupA db.state chat_id = none ∨
      lookupA db.state chat_id = some .Unconfirmed) :
    db.is_accepted chat_id = false ∧ db.chat_prev now chat_id = ([], db) := by
  unfold KindaDb.is_accepted KindaDb.chat_prev
  rcases h with h | h <;> rw [h] <;> exact ⟨rfl, rfl⟩

theorem C10_witness :
    (⟨[(2, ChatState.Unconfirmed)], none, []⟩ : KindaDb).is_accepted 1 = false ∧
    (⟨[(2, ChatState.Unconfirmed)], none, []⟩ : KindaDb).chat_prev 5 1 =
      ([], ⟨[(2, ChatState.Unconfirmed)], none, []⟩) :=
  C10_gating ⟨[(2, ChatState.Unconfirmed)], none, []⟩ 5 1 (Or.inl (by decide))

/-- Claim C8: there is persisted state on which the startup load aborts
rather than building a store: a snapshot line whose identifier does not
parse as an integer, and a transcript log whose delimiter-separated
nonempty fragment count is odd, each make the load fail (none models the
process abort). -/
theorem C8_load_aborts :
    KindaDb.new (some "x 0\n".data) [] = none ∧
    KindaDb.new (some "1 5\n".data)
      [(1, "\"user\"***\nhi***\nodd***\n".data)] = none := by
  constructor <;> decide

/-- Claim C1 counterexample: for a record confirmed at time 5, calling
add_message leaves the stored timestamp at 5.  The claim requires it to
equal the current time of the call, so at any call time other than 5 (for
instance 6) the claim fails; the source stores conv_start back unchanged
and never reads the clock in add_to_chat. -/
theorem C1_counterexample :
    lookupA ((⟨[(1, ChatState.Confirmed 5 [])], none, []⟩ : KindaDb).add_to_chat
        1 Role.user "x".data).state 1 =
      some (ChatState.Confirmed 5 [(Role.user, "x".data)]) ∧
    lookupA ((⟨[(1, ChatState.Confirmed 5 [])], none, []⟩ : KindaDb).add_to_chat
        1 Role.user "x".data).state 1 ≠
      some (ChatState.Confirmed 6 [(Role.user, "x".data)]) := by
  constructor <;> decide

/-- Claim C1 (amended): for every id whose record is Confirmed, after
add_message(id, role, content) the record still carries its previous
last_activity timestamp (the conversation-start time, unchanged by the
call), with (role, content) appended to the in-memory transcript and the
encoded chunk appended to the transcript log, and the index snapshot
rewritten. -/
theorem C1_add_message (db : KindaDb) (chat_id : Int) (ro : Role) (m : Str)
    (la : Nat) (cur : List (Role × Str))
    (h : lookupA db.state chat_id = some (.Confirmed la cur)) :
    lookupA (db.add_to_chat chat_id ro m).state chat_id =
        some (.Confirmed la (cur ++ [(ro, m)])) ∧
    lookupA (db.add_to_chat chat_id ro m).chatFiles chat_id =
        some ((lookupA db.chatFiles chat_id).getD [] ++ chunkL ro m) ∧
    SnapshotInv (db.add_to_chat chat_id ro m) := by
  have hadd := add_to_chat_confirmed db chat_id ro m la cur h
  refine ⟨?_, ?_, ?_⟩
  · rw [hadd.1]
    exact lookupA_insertA_self _ _ _
  · rw [hadd.2.1]
    exact appendChat_self _ _ _
  · exact snapInv_save _

theorem C1_witness :
    lookupA ((⟨[(1, ChatState.Confirmed 5 [])], none, []⟩ : KindaDb).add_to_chat
        1 Role.user "x".data).state 1 =
      some (ChatState.Confirmed 5 ([] ++ [(Role.user, "x".data)])) ∧
    lookupA ((⟨[(1, ChatState.Confirmed 5 [])], none, []⟩ : KindaDb).add_to_chat
        1 Role.user "x".data).chatFiles 1 =
      some ((lookupA ([] : List (Int × Str)) 1).getD [] ++
        chunkL Role.user "x".data) ∧
    SnapshotInv ((⟨[(1, ChatState.Confirmed 5 [])], none, []⟩ : KindaDb).add_to_chat
        1 Role.user "x".data) :=
  C1_add_message ⟨[(1, ChatState.Confirmed 5 [])], none, []⟩ 1 Role.user
    "x".data 5 [] (by decide)

/-- Claim C2: after every completed mutating operation (register, confirm,
reset_chat, delete, add_message, and the implicit reset performed by
read_rolling_context when the window has elapsed) the index snapshot file
holds exactly one line per entry of the in-memory table, with marker 0 for
Unconfirmed and the last_activity value for Confirmed, and no other
lines. -/
theorem C2_snapshot (db : KindaDb) (now : Nat) (chat_id : Int) (ro : Role)
    (m : Str) :
    SnapshotInv (db.register chat_id) ∧
    SnapshotInv (db.confirm now chat_id) ∧
    SnapshotInv (db.reset_chat now chat_id) ∧
    SnapshotInv (db.delete chat_id) ∧
    SnapshotInv (db.add_to_chat chat_id ro m) ∧
    (∀ la msgs, lookupA db.state chat_id = some (.Confirmed la msgs) →
      1800 ≤ u64sub now la →
      SnapshotInv (db.chat_prev now chat_id).2) := by
  refine ⟨snapInv_save _, snapInv_save _, snapInv_save _, snapInv_save _,
    snapInv_save _, ?_⟩
  intro la msgs h hw
  rw [chat_prev_of_confirmed _ _ _ _ _ h, if_neg (by omega)]
  exact snapInv_save _

theorem C2_witness :
    SnapshotInv ((⟨[(1, ChatState.Confirmed 5 [])], none, []⟩ :
        KindaDb).register 1) ∧
    SnapshotInv ((⟨[(1, ChatState.Confirmed 5 [])], none, []⟩ :
        KindaDb).chat_prev 2000 1).2 := by
  have h := C2_snapshot ⟨[(1, ChatState.Confirmed 5 [])], none, []⟩ 2000 1
    Role.user "m".data
  exact ⟨h.1, h.2.2.2.2.2 5 [] (by decide) (by decide)⟩


/-- Claim C4: for a Confirmed record read at a time past the activity
window, read_rolling_context returns the empty sequence and performs the
implicit reset (transcript cleared, log file deleted, last_activity set to
now, snapshot rewritten), and a subsequent add_message starts a fresh
transcript holding only the new message; within the window it returns the
transcript and mutates nothing. -/
theorem C4_window (db : KindaDb) (now : Nat) (chat_id : Int) (la : Nat)
    (msgs : List (Role × Str))
    (h : lookupA db.state chat_id = some (.Confirmed la msgs))
    (hla : la ≤ now) (hnow : now < U64MOD) :
    (1800 ≤ now - la →
      (db.chat_prev now chat_id).1 = [] ∧
      (db.chat_prev now chat_id).2 = db.reset_chat now chat_id ∧
      lookupA (db.reset_chat now chat_id).state chat_id =
          some (.Confirmed now []) ∧
      lookupA (db.reset_chat now chat_id).chatFiles chat_id = none ∧
      SnapshotInv (db.reset_chat now chat_id) ∧
      (∀ ro m,
        lookupA ((db.reset_chat now chat_id).add_to_chat chat_id ro m).state
            chat_id = some (.Confirmed now [(ro, m)]) ∧
        lookupA ((db.reset_chat now chat_id).add_to_chat chat_id ro
            m).chatFiles chat_id = some (chunkL ro m))) ∧
    (now - la < 1800 → db.chat_prev now chat_id = (msgs, db)) := by
  have hsub : u64sub now la = now - la := u64sub_eq now la hla hnow
  have hcpc := chat_prev_of_confirmed db now chat_id la msgs h
  constructor
  · intro hw
    have hcp : db.chat_prev now chat_id = ([], db.reset_chat now chat_id) := by
      rw [hcpc, if_neg (by omega)]
    have hrs : lookupA (db.reset_chat now chat_id).state chat_id =
        some (.Confirmed now []) := lookupA_insertA_self _ _ _
    refine ⟨by rw [hcp], by rw [hcp], hrs, lookupA_removeA_self _ _,
      snapInv_save _, ?_⟩
    intro ro m
    have hadd := add_to_chat_confirmed (db.reset_chat now chat_id) chat_id ro m
      now [] hrs
    constructor
    · rw [hadd.1]
      exact lookupA_insertA_self _ _ _
    · have hcf : (db.reset_chat now chat_id).chatFiles =
          removeA db.chatFiles chat_id := rfl
      rw [hadd.2.1, appendChat_self, hcf, lookupA_removeA_self]
      rfl
  · intro hw
    rw [hcpc, if_pos (by omega)]

theorem C4_witness :
    ((⟨[(1, ChatState.Confirmed 100 [])], none, []⟩ :
        KindaDb).chat_prev 2000 1).1 = [] ∧
    ((⟨[(1, ChatState.Confirmed 100 [])], none, []⟩ :
        KindaDb).chat_prev 2000 1).2 =
      (⟨[(1, ChatState.Confirmed 100 [])], none, []⟩ :
        KindaDb).reset_chat 2000 1 ∧
    lookupA ((⟨[(1, ChatState.Confirmed 100 [])], none, []⟩ :
        KindaDb).reset_chat 2000 1).state 1 =
      some (ChatState.Confirmed 2000 []) ∧
    lookupA ((⟨[(1, ChatState.Confirmed 100 [])], none, []⟩ :
        KindaDb).reset_chat 2000 1).chatFiles 1 = none ∧
    SnapshotInv ((⟨[(1, ChatState.Confirmed 100 [])], none, []⟩ :
        KindaDb).reset_chat 2000 1) ∧
    lookupA (((⟨[(1, ChatState.Confirmed 100 [])], none, []⟩ :
        KindaDb).reset_chat 2000 1).add_to_chat 1 Role.user "x".data).state
        1 = some (ChatState.Confirmed 2000 [(Role.user, "x".data)]) ∧
    lookupA (((⟨[(1, ChatState.Confirmed 100 [])], none, []⟩ :
        KindaDb).reset_chat 2000 1).add_to_chat 1 Role.user
        "x".data).chatFiles 1 = some (chunkL Role.user "x".data) := by
  have h := (C4_window ⟨[(1, ChatState.Confirmed 100 [])], none, []⟩ 2000 1
    100 [] (by decide) (by decide) (by decide)).1 (by decide)
  exact ⟨h.1, h.2.1, h.2.2.1, h.2.2.2.1, h.2.2.2.2.1,
    (h.2.2.2.2.2 Role.user "x".data).1, (h.2.2.2.2.2 Role.user "x".data).2⟩

/-- Claim C6 counterexample: the single appended message (User, "") has a
content that does not contain the delimiter, yet the read procedure does
not reconstruct the appended sequence: the empty content yields an empty
fragment which is discarded, leaving an odd fragment count, so the read
aborts (none) instead of returning the sequence. -/
theorem C6_counterexample :
    hasDelim delimRec [] = false ∧
    parseChatFileL (logFileL [(Role.user, [])]) = none := by
  constructor <;> decide

/-- Claim C6 (amended): for every sequence of messages appended in order by
add_message to a Confirmed session with no pre-existing log file, if no
content contains the delimiter sequence verbatim and every content is
nonempty, the read procedure (split on the delimiter, discard empty
fragments, pair up in file order) reconstructs exactly the appended
sequence. -/
theorem C6_log_roundtrip (db : KindaDb) (chat_id : Int) (la : Nat)
    (cur msgs : List (Role × Str))
    (hst : lookupA db.state chat_id = some (.Confirmed la cur))
    (hfile : lookupA db.chatFiles chat_id = none)
    (hok : ∀ p ∈ msgs, hasDelim delimRec p.2 = false ∧ nonEmptyB p.2 = true) :
    parseChatFileL
        ((lookupA (foldAdd db chat_id msgs).chatFiles chat_id).getD []) =
      some msgs := by
  cases msgs with
  | nil =>
      have hid : foldAdd db chat_id [] = db := rfl
      rw [hid, hfile]
      rfl
  | cons p rest =>
      obtain ⟨ro, m⟩ := p
      have hadd := add_to_chat_confirmed db chat_id ro m la cur hst
      have hst1 : lookupA (db.add_to_chat chat_id ro m).state chat_id =
          some (.Confirmed la (cur ++ [(ro, m)])) := by
        rw [hadd.1]
        exact lookupA_insertA_self _ _ _
      have hcf1 : lookupA (db.add_to_chat chat_id ro m).chatFiles chat_id =
          some (chunkL ro m) := by
        rw [hadd.2.1, appendChat_self, hfile]
        rfl
      have hinv := foldAdd_invariant rest (db.add_to_chat chat_id ro m) chat_id
        la (cur ++ [(ro, m)]) (chunkL ro m) hst1 hcf1
      have hfold : foldAdd db chat_id ((ro, m) :: rest) =
          foldAdd (db.add_to_chat chat_id ro m) chat_id rest := rfl
      rw [hfold, hinv.2]
      have hlog : chunkL ro m ++ logFileL rest = logFileL ((ro, m) :: rest) :=
        rfl
      rw [Option.getD_some, hlog]
      exact parseChatFileL_logFileL _ hok

theorem C6_witness :
    parseChatFileL
        ((lookupA (foldAdd ⟨[(1, ChatState.Confirmed 5 [])], none, []⟩ 1
            [(Role.user, "hi".data), (Role.assistant, "ok".data)]).chatFiles
          1).getD []) =
      some [(Role.user, "hi".data), (Role.assistant, "ok".data)] :=
  C6_log_roundtrip ⟨[(1, ChatState.Confirmed 5 [])], none, []⟩ 1 5 []
    [(Role.user, "hi".data), (Role.assistant, "ok".data)]
    (by decide) (by decide) (by decide)

/-- Claim C3: round-trip persistence: from the empty store, register(id),
confirm(id) at time t0, add_message(id, User, "hi"), then reloading from
the durable files and reading at a time t1 within the activity window
returns exactly [(User, "hi")].  The id ranges over i64 and the times over
u64 epoch seconds with t0 positive. -/
theorem C3_roundtrip (chat_id : Int) (t0 t1 : Nat)
    (hlo : -(I64HIN : Int) ≤ chat_id) (hhi : chat_id < (I64HIN : Int))
    (ht0 : 0 < t0) (hle : t0 ≤ t1) (ht1 : t1 < U64MOD)
    (hwin : t1 - t0 < 1800) :
    ∃ db' : KindaDb,
      KindaDb.new
          ((((⟨[], none, []⟩ : KindaDb).register chat_id).confirm t0
              chat_id).add_to_chat chat_id Role.user "hi".data).dbFile
          ((((⟨[], none, []⟩ : KindaDb).register chat_id).confirm t0
              chat_id).add_to_chat chat_id Role.user "hi".data).chatFiles =
        some db' ∧
      (db'.chat_prev t1 chat_id).1 = [(Role.user, "hi".data)] := by
  have h2state : ((((⟨[], none, []⟩ : KindaDb).register chat_id).confirm t0
      chat_id)).state = [(chat_id, ChatState.Confirmed t0 [])] := by
    show insertA (insertA [] chat_id ChatState.Unconfirmed) chat_id
        (ChatState.Confirmed t0 []) = _
    simp [insertA]
  have h2lookup : lookupA ((((⟨[], none, []⟩ : KindaDb).register
      chat_id).confirm t0 chat_id)).state chat_id =
      some (ChatState.Confirmed t0 []) := by
    rw [h2state]
    simp [lookupA]
  have hadd := add_to_chat_confirmed
    (((⟨[], none, []⟩ : KindaDb).register chat_id).confirm t0 chat_id)
    chat_id Role.user "hi".data t0 [] h2lookup
  have h3files : ((((⟨[], none, []⟩ : KindaDb).register chat_id).confirm t0
      chat_id).add_to_chat chat_id Role.user "hi".data).chatFiles =
      [(chat_id, chunkL Role.user "hi".data)] := by
    rw [hadd.2.1]
    rfl
  have h3file : ((((⟨[], none, []⟩ : KindaDb).register chat_id).confirm t0
      chat_id).add_to_chat chat_id Role.user "hi".data).dbFile =
      some (saveStateStr
        [(chat_id, ChatState.Confirmed t0 [(Role.user, "hi".data)])]) := by
    rw [hadd.2.2]
    have hins : insertA (((⟨[], none, []⟩ : KindaDb).register
        chat_id).confirm t0 chat_id).state chat_id
        (ChatState.Confirmed t0 ([] ++ [(Role.user, "hi".data)])) =
        [(chat_id, ChatState.Confirmed t0 [(Role.user, "hi".data)])] := by
      rw [h2state]
      simp [insertA]
    rw [hins]
  have hlines : linesOf (saveStateStr
      [(chat_id, ChatState.Confirmed t0 [(Role.user, "hi".data)])]) =
      [intRepr chat_id ++ ' ' :: natRepr t0] := by
    rw [lines_save]
    rfl
  have ht0u : t0 < U64MOD := lt_of_le_of_lt hle ht1
  have hsplit : splitWs (intRepr chat_id ++ ' ' :: natRepr t0) =
      [intRepr chat_id, natRepr t0] :=
    splitWs_pair _ _ (intRepr_ne_nil _) (natRepr_ne_nil _)
      (intRepr_no_ws _) (natRepr_no_ws _)
  have hrec : parseRecord (intRepr chat_id ++ ' ' :: natRepr t0) =
      some (chat_id, t0) := by
    simp [parseRecord, hsplit, parseI64_intRepr chat_id hlo hhi,
      parseU64_natRepr t0 ht0u]
  have hlk : lookupA [(chat_id, chunkL Role.user "hi".data)] chat_id =
      some (chunkL Role.user "hi".data) := by
    simp [lookupA]
  have hparse : parseChatFileL (chunkL Role.user "hi".data) =
      some [(Role.user, "hi".data)] := by decide
  have ht0ne : ¬ (t0 = 0) := by omega
  have hloadrec : loadRecord [(chat_id, chunkL Role.user "hi".data)]
      (intRepr chat_id ++ ' ' :: natRepr t0) =
      some (chat_id, ChatState.Confirmed t0 [(Role.user, "hi".data)]) := by
    simp [loadRecord, hrec, ht0ne, hlk, hparse]
  have hloop : loadLoop [(chat_id, chunkL Role.user "hi".data)]
      [intRepr chat_id ++ ' ' :: natRepr t0] [] =
      some [(chat_id, ChatState.Confirmed t0 [(Role.user, "hi".data)])] := by
    simp [loadLoop, hloadrec, insertA]
  refine ⟨⟨[(chat_id, ChatState.Confirmed t0 [(Role.user, "hi".data)])],
      some (saveStateStr
        [(chat_id, ChatState.Confirmed t0 [(Role.user, "hi".data)])]),
      [(chat_id, chunkL Role.user "hi".data)]⟩, ?_, ?_⟩
  · rw [h3file, h3files]
    simp [KindaDb.new, hlines, hloop]
  · have hlk2 : lookupA [(chat_id, ChatState.Confirmed t0
        [(Role.user, "hi".data)])] chat_id =
        some (ChatState.Confirmed t0 [(Role.user, "hi".data)]) := by
      simp [lookupA]
    rw [chat_prev_of_confirmed _ _ _ _ _ hlk2,
      if_pos (show u64sub t1 t0 < 1800 by
        rw [u64sub_eq t1 t0 hle ht1]; omega)]

theorem C3_witness :
    ∃ db' : KindaDb,
      KindaDb.new
          ((((⟨[], none, []⟩ : KindaDb).register 7).confirm 1000
              7).add_to_chat 7 Role.user "hi".data).dbFile
          ((((⟨[], none, []⟩ : KindaDb).register 7).confirm 1000
              7).add_to_chat 7 Role.user "hi".data).chatFiles =
        some db' ∧
      (db'.chat_prev 1500 7).1 = [(Role.user, "hi".data)] :=
  C3_roundtrip 7 1000 1500 (by decide) (by decide) (by decide) (by decide)
    (by decide) (by decide)

end Councillor
